import Mathlib

/-
Verification of the fan-out/fan-in pipeline in precode.go.

The program is embedded as a labelled transition system.  A Go channel of
int64 is modelled as the full history of values sent on it (`sent`), the
number of values already received from it (`taken`), and a closed flag; the
current buffer content is `sent.drop taken`.  Unbuffered rendezvous
executions are a subset of the queue executions modelled here, so safety
properties proved over all interleavings of this system cover the Go
program's executions.  Machine int64 arithmetic is modelled with `Int`;
the claims compared here are equalities between quantities computed from
the same values on both sides, so wrap-around affects both sides
identically and unbounded integers are faithful.

Tasks: the Generator (select on ctx.Done / send / observer callback), the
N Workers (receive from the shared input channel, forward to a dedicated
output channel), the N collector goroutines (receive from one worker
channel, increment amounts[i] under the mutex, forward to chOut), the
closer goroutine (wg.Wait then close(chOut)), and the sink goroutine
(drain chOut into count/sum).  The mutex-protected increment and the
atomic adds are single atomic transitions.  The per-item time.Sleep and
the wall-clock deadline only affect timing, not which transitions are
enabled, and are abstracted into the nondeterministic `deadline` step.

The sequential tail of main (the three fmt.Println lines and the
log.Fatalf checks) is embedded as pure functions at the end of the
definitions section.
-/

set_option maxHeartbeats 1000000

/-- A Go channel of int64: history of sent values, count of received values,
closed flag.  The buffer is `sent.drop taken`. -/
structure Chan where
  sent : List Int
  taken : Nat
  closed : Bool
  deriving DecidableEq

/-- Current buffer contents of a channel. -/
def Chan.buf (c : Chan) : List Int := c.sent.drop c.taken

/-- A fresh channel (`make(chan int64)`), empty and open. -/
def Chan.init : Chan := ⟨[], 0, false⟩

/-- Sending a value on a channel appends it to the history. -/
def Chan.push (c : Chan) (v : Int) : Chan := ⟨c.sent ++ [v], c.taken, c.closed⟩

/-- Receiving from a channel consumes the head of the buffer. -/
def Chan.pop (c : Chan) : Chan := ⟨c.sent, c.taken + 1, c.closed⟩

/-- Closing a channel (`close(ch)`). -/
def Chan.close (c : Chan) : Chan := ⟨c.sent, c.taken, true⟩

/-- Sum of the values already received from a channel. -/
def Chan.takenSum (c : Chan) : Int := (c.sent.take c.taken).sum

/-- Control state of the Generator goroutine: `checking` is the top of the
loop (the select), `observing` means value `n` has been sent on the channel
but the observer callback `fn n` has not yet run, `done` means the goroutine
has returned (running `defer close(ch)` on the way out). -/
inductive GenPhase
  | checking
  | observing
  | done
  deriving DecidableEq

/-- State of the Generator goroutine: the loop counter `n` and the phase. -/
structure GenSt where
  n : Int
  phase : GenPhase
  deriving DecidableEq

/-- Control state of a relay goroutine (Worker or collector): `idle` at the
top of its `for v := range ch` loop, `relaying v` after receiving `v` and
before forwarding it, `stopped` after the loop has exited. -/
inductive RelSt
  | idle
  | relaying (v : Int)
  | stopped
  deriving DecidableEq

/-- Control state of the sink goroutine draining chOut. -/
inductive SinkSt
  | running
  | finished
  deriving DecidableEq

/-- The value a relay goroutine currently holds, as a list. -/
def RelSt.heldList : RelSt → List Int
  | .relaying v => [v]
  | _ => []

/-- 1 if the relay goroutine holds a value, else 0. -/
def RelSt.heldCount : RelSt → Int
  | .relaying _ => 1
  | _ => 0

/-- The value a relay goroutine currently holds, else 0. -/
def RelSt.heldSum : RelSt → Int
  | .relaying v => v
  | _ => 0

@[simp] lemma RelSt.heldCount_idle : RelSt.idle.heldCount = 0 := rfl

@[simp] lemma RelSt.heldCount_stopped : RelSt.stopped.heldCount = 0 := rfl

@[simp] lemma RelSt.heldCount_relaying (v : Int) : (RelSt.relaying v).heldCount = 1 := rfl

@[simp] lemma RelSt.heldSum_idle : RelSt.idle.heldSum = 0 := rfl

@[simp] lemma RelSt.heldSum_stopped : RelSt.stopped.heldSum = 0 := rfl

@[simp] lemma RelSt.heldSum_relaying (v : Int) : (RelSt.relaying v).heldSum = v := rfl

@[simp] lemma RelSt.heldList_idle : RelSt.idle.heldList = [] := rfl

@[simp] lemma RelSt.heldList_stopped : RelSt.stopped.heldList = [] := rfl

@[simp] lemma RelSt.heldList_relaying (v : Int) : (RelSt.relaying v).heldList = [v] := rfl

/-- Global state of the pipeline with `N` workers (NumOut = 20 in the
source; the model keeps it a parameter).  `ctxDone` records whether the
context deadline has fired; `wrecvd i` is the (ghost) list of values worker
`i` has received from chIn, in order; `amounts i` models `amounts[i]`;
`inputCount`/`inputSum` are the source-side atomics, `count`/`sum` the
sink-side atomics; `closerDone` records whether the `wg.Wait(); close(chOut)`
goroutine has run. -/
structure PState (N : Nat) where
  ctxDone : Bool
  gen : GenSt
  chIn : Chan
  worker : Fin N → RelSt
  wrecvd : Fin N → List Int
  outs : Fin N → Chan
  coll : Fin N → RelSt
  amounts : Fin N → Int
  chOut : Chan
  closerDone : Bool
  sinkSt : SinkSt
  inputCount : Int
  inputSum : Int
  count : Int
  sum : Int
  deriving DecidableEq

/-- Initial state of the pipeline: counter at 1, everything empty and open. -/
def PState.init (N : Nat) : PState N :=
  { ctxDone := false
    gen := ⟨1, .checking⟩
    chIn := Chan.init
    worker := fun _ => .idle
    wrecvd := fun _ => []
    outs := fun _ => Chan.init
    coll := fun _ => .idle
    amounts := fun _ => 0
    chOut := Chan.init
    closerDone := false
    sinkSt := .running
    inputCount := 0
    inputSum := 0
    count := 0
    sum := 0 }

/-- One interleaved step of the pipeline.  Each constructor is one atomic
transition of one goroutine of precode.go (or the deadline firing). -/
inductive Step {N : Nat} : PState N → PState N → Prop
  /-- The 1-second context deadline fires (at an arbitrary point). -/
  | deadline (s : PState N) :
      s.ctxDone = false →
      Step s { s with ctxDone := true }
  /-- Generator, select default branch: `ch <- n`.  Taken only while
  `ctx.Done()` is not ready, since select prefers a ready case. -/
  | genSend (s : PState N) :
      s.gen.phase = .checking → s.ctxDone = false →
      Step s { s with chIn := s.chIn.push s.gen.n
                      gen := ⟨s.gen.n, .observing⟩ }
  /-- Generator: `fn(n)` (the atomic adds to inputCount/inputSum), then
  `n++` and back to the top of the loop. -/
  | genObserve (s : PState N) :
      s.gen.phase = .observing →
      Step s { s with inputCount := s.inputCount + 1
                      inputSum := s.inputSum + s.gen.n
                      gen := ⟨s.gen.n + 1, .checking⟩ }
  /-- Generator, select `<-ctx.Done()` branch: return, running the deferred
  `close(ch)`. -/
  | genCancel (s : PState N) :
      s.gen.phase = .checking → s.ctxDone = true →
      Step s { s with gen := ⟨s.gen.n, .done⟩
                      chIn := s.chIn.close }
  /-- Worker `i` receives `v` from chIn (`for v := range in`). -/
  | wRecv (s : PState N) (i : Fin N) (v : Int) :
      s.worker i = .idle → s.chIn.buf.head? = some v →
      Step s { s with chIn := s.chIn.pop
                      worker := Function.update s.worker i (.relaying v)
                      wrecvd := Function.update s.wrecvd i (s.wrecvd i ++ [v]) }
  /-- Worker `i` forwards the received value: `out <- v` (the subsequent
  `time.Sleep` only affects timing). -/
  | wSend (s : PState N) (i : Fin N) (v : Int) :
      s.worker i = .relaying v →
      Step s { s with outs := Function.update s.outs i ((s.outs i).push v)
                      worker := Function.update s.worker i .idle }
  /-- Worker `i` sees chIn closed and drained: the range loop exits and the
  deferred `close(out)` runs. -/
  | wStop (s : PState N) (i : Fin N) :
      s.worker i = .idle → s.chIn.closed = true → s.chIn.buf = [] →
      Step s { s with worker := Function.update s.worker i .stopped
                      outs := Function.update s.outs i ((s.outs i).close) }
  /-- Collector `i` receives `v` from its worker channel and performs the
  mutex-protected `amounts[i]++`. -/
  | cRecv (s : PState N) (i : Fin N) (v : Int) :
      s.coll i = .idle → (s.outs i).buf.head? = some v →
      Step s { s with outs := Function.update s.outs i ((s.outs i).pop)
                      amounts := Function.update s.amounts i (s.amounts i + 1)
                      coll := Function.update s.coll i (.relaying v) }
  /-- Collector `i` forwards the value to the merged channel: `chOut <- v`. -/
  | cSend (s : PState N) (i : Fin N) (v : Int) :
      s.coll i = .relaying v →
      Step s { s with chOut := s.chOut.push v
                      coll := Function.update s.coll i .idle }
  /-- Collector `i` sees its worker channel closed and drained: the range
  loop exits and `wg.Done()` runs. -/
  | cStop (s : PState N) (i : Fin N) :
      s.coll i = .idle → (s.outs i).closed = true → (s.outs i).buf = [] →
      Step s { s with coll := Function.update s.coll i .stopped }
  /-- The closer goroutine: `wg.Wait()` returns once every collector has
  called `wg.Done()`, then `close(chOut)` runs. -/
  | closer (s : PState N) :
      s.closerDone = false → (∀ i, s.coll i = .stopped) →
      Step s { s with chOut := s.chOut.close
                      closerDone := true }
  /-- The sink goroutine receives `v` from chOut and performs the atomic
  adds to count and sum. -/
  | sinkRecv (s : PState N) (v : Int) :
      s.sinkSt = .running → s.chOut.buf.head? = some v →
      Step s { s with chOut := s.chOut.pop
                      count := s.count + 1
                      sum := s.sum + v }
  /-- The sink goroutine sees chOut closed and drained: its range loop exits
  and `wg1.Done()` runs, releasing `wg1.Wait()` in main. -/
  | sinkStop (s : PState N) :
      s.sinkSt = .running → s.chOut.closed = true → s.chOut.buf = [] →
      Step s { s with sinkSt := .finished }

/-- States reachable from the initial pipeline state. -/
inductive Reachable (N : Nat) : PState N → Prop
  | init : Reachable N (PState.init N)
  | step {s t : PState N} : Reachable N s → Step s t → Reachable N t

/-- Full quiescence: the Generator has returned, every worker and collector
loop has exited, chOut has been closed, the sink has finished, and every
channel buffer is empty.  This is the state in which main runs the report
and the checks (after `wg1.Wait()`). -/
def Drained {N : Nat} (s : PState N) : Prop :=
  s.gen.phase = .done ∧
  (∀ i, s.worker i = .stopped) ∧
  (∀ i, s.coll i = .stopped) ∧
  s.closerDone = true ∧
  s.sinkSt = .finished ∧
  s.chIn.buf = [] ∧
  (∀ i, (s.outs i).buf = []) ∧
  s.chOut.buf = []

/-- The list [1, 2, ..., m] as integers: the sequence the Generator emits. -/
def intSeq (m : Nat) : List Int := (List.range m).map (fun j => (j : Int) + 1)

/-- The head of the buffer is the `taken`-th element of the history. -/
lemma Chan.head_getElem {c : Chan} {v : Int} (h : c.buf.head? = some v) :
    c.sent[c.taken]? = some v := by
  rw [Chan.buf, List.head?_drop] at h
  exact h

/-- A nonempty buffer means some of the history is still undelivered. -/
lemma Chan.head_lt {c : Chan} {v : Int} (h : c.buf.head? = some v) :
    c.taken < c.sent.length := by
  rcases List.getElem?_eq_some.mp (Chan.head_getElem h) with ⟨hl, -⟩
  exact hl

/-- Receiving the head value `v` grows the received-value sum by `v`. -/
lemma Chan.takenSum_pop {c : Chan} {v : Int} (h : c.buf.head? = some v) :
    c.pop.takenSum = c.takenSum + v := by
  have hg := Chan.head_getElem h
  simp [Chan.takenSum, Chan.pop, List.take_succ, hg]

/-- An empty buffer means everything sent has been received. -/
lemma Chan.taken_eq_of_buf_nil {c : Chan} (hle : c.taken ≤ c.sent.length)
    (h : c.buf = []) : c.taken = c.sent.length := by
  rw [Chan.buf] at h
  have := List.drop_eq_nil_iff.mp h
  omega

/-- Once everything sent has been received, the received sum is the sum of
the whole history. -/
lemma Chan.takenSum_full {c : Chan} (hfull : c.taken = c.sent.length) :
    c.takenSum = c.sent.sum := by
  rw [Chan.takenSum, hfull, List.take_length]

/-- Summing a measure `g` over a family after a pointwise update. -/
lemma sum_update_general {N : Nat} {α : Type} (g : α → Int) (f : Fin N → α)
    (i : Fin N) (b : α) :
    (∑ j, g (Function.update f i b j)) = (∑ j, g (f j)) - g (f i) + g b := by
  have h1 : (∑ j, g (Function.update f i b j))
      = g b + ∑ j ∈ Finset.univ \ {i}, g (f j) := by
    rw [Finset.sum_eq_add_sum_diff_singleton (Finset.mem_univ i)
      (fun j => g (Function.update f i b j)), Function.update_same]
    congr 1
    refine Finset.sum_congr rfl (fun j hj => ?_)
    rcases Finset.mem_sdiff.mp hj with ⟨-, hj2⟩
    rw [Function.update_noteq (by simpa using hj2)]
  have h2 : (∑ j, g (f j)) = g (f i) + ∑ j ∈ Finset.univ \ {i}, g (f j) :=
    Finset.sum_eq_add_sum_diff_singleton (Finset.mem_univ i) _
  omega

/-- Length-sum over a family of lists after updating one entry. -/
lemma sum_len_update {N : Nat} (f : Fin N → List Int) (i : Fin N) (b : List Int) :
    (∑ j, ((Function.update f i b j).length : Int))
      = (∑ j, ((f j).length : Int)) - (f i).length + b.length :=
  sum_update_general (fun l => ((l.length : Nat) : Int)) f i b

/-- Value-sum over a family of lists after updating one entry. -/
lemma sum_sum_update {N : Nat} (f : Fin N → List Int) (i : Fin N) (b : List Int) :
    (∑ j, (Function.update f i b j).sum)
      = (∑ j, (f j).sum) - (f i).sum + b.sum :=
  sum_update_general (fun l => l.sum) f i b

/-- Taken-count sum over a family of channels after updating one entry. -/
lemma sum_taken_update {N : Nat} (f : Fin N → Chan) (i : Fin N) (b : Chan) :
    (∑ j, ((Function.update f i b j).taken : Int))
      = (∑ j, ((f j).taken : Int)) - (f i).taken + b.taken :=
  sum_update_general (fun c => ((c.taken : Nat) : Int)) f i b

/-- Received-value sum over a family of channels after updating one entry. -/
lemma sum_takenSum_update {N : Nat} (f : Fin N → Chan) (i : Fin N) (b : Chan) :
    (∑ j, (Function.update f i b j).takenSum)
      = (∑ j, (f j).takenSum) - (f i).takenSum + b.takenSum :=
  sum_update_general (fun c => c.takenSum) f i b

/-- Held-count sum over a family of relay states after updating one entry. -/
lemma sum_heldCount_update {N : Nat} (f : Fin N → RelSt) (i : Fin N) (b : RelSt) :
    (∑ j, (Function.update f i b j).heldCount)
      = (∑ j, (f j).heldCount) - (f i).heldCount + b.heldCount :=
  sum_update_general (fun r => r.heldCount) f i b

/-- Held-value sum over a family of relay states after updating one entry. -/
lemma sum_heldSum_update {N : Nat} (f : Fin N → RelSt) (i : Fin N) (b : RelSt) :
    (∑ j, (Function.update f i b j).heldSum)
      = (∑ j, (f j).heldSum) - (f i).heldSum + b.heldSum :=
  sum_update_general (fun r => r.heldSum) f i b

/-- Appending one more value to the canonical sequence. -/
lemma intSeq_succ (m : Nat) : intSeq (m + 1) = intSeq m ++ [(m : Int) + 1] := by
  simp [intSeq, List.range_succ]

/-- The inductive invariant of the pipeline: a global ledger relating every
counter to the channel histories, plus the closure-propagation facts.
`heldCount`/`heldSum`/`heldList` account for the value a relay goroutine has
received but not yet forwarded. -/
structure PipeInv {N : Nat} (s : PState N) : Prop where
  gen_n_eq : s.gen.n = (s.chIn.sent.length : Int)
      + (if s.gen.phase = GenPhase.observing then 0 else 1)
  sent_seq : s.chIn.sent = intSeq s.chIn.sent.length
  src_cnt : (s.chIn.sent.length : Int) = s.inputCount
      + (if s.gen.phase = GenPhase.observing then 1 else 0)
  src_sum : s.chIn.sent.sum = s.inputSum
      + (if s.gen.phase = GenPhase.observing then s.gen.n else 0)
  chIn_taken_le : s.chIn.taken ≤ s.chIn.sent.length
  chIn_cnt : (s.chIn.taken : Int) = ∑ i, ((s.wrecvd i).length : Int)
  chIn_sum : s.chIn.takenSum = ∑ i, (s.wrecvd i).sum
  wforward : ∀ i, s.wrecvd i = (s.outs i).sent ++ (s.worker i).heldList
  outs_taken_le : ∀ i, (s.outs i).taken ≤ (s.outs i).sent.length
  amounts_eq : ∀ i, s.amounts i = ((s.outs i).taken : Int)
  chOut_cnt : (s.chOut.sent.length : Int) + ∑ i, (s.coll i).heldCount
      = ∑ i, ((s.outs i).taken : Int)
  chOut_sum : s.chOut.sent.sum + ∑ i, (s.coll i).heldSum
      = ∑ i, (s.outs i).takenSum
  chOut_taken_le : s.chOut.taken ≤ s.chOut.sent.length
  sink_cnt : (s.chOut.taken : Int) = s.count
  sink_sum : s.chOut.takenSum = s.sum
  gen_closed : s.gen.phase = GenPhase.done → s.chIn.closed = true
  gen_open : s.chIn.closed = true → s.gen.phase = GenPhase.done
  outs_closed : ∀ i, ((s.outs i).closed = true ↔ s.worker i = RelSt.stopped)
  w_stop_in : ∀ i, s.worker i = RelSt.stopped → s.chIn.closed = true
  chOut_closed : s.chOut.closed = s.closerDone
  closer_barrier : s.closerDone = true → ∀ i, s.coll i = RelSt.stopped
  c_stop_in : ∀ i, s.coll i = RelSt.stopped → (s.outs i).closed = true

/-- The invariant holds in the initial state. -/
lemma pipeInv_init (N : Nat) : PipeInv (PState.init N) := by
  constructor <;>
    simp [PState.init, Chan.init, Chan.takenSum, RelSt.heldList, RelSt.heldCount,
      RelSt.heldSum, intSeq]

/-- Pushing a value does not change the received-value sum. -/
lemma Chan.takenSum_push {c : Chan} (hle : c.taken ≤ c.sent.length) (v : Int) :
    (c.push v).takenSum = c.takenSum := by
  simp [Chan.takenSum, Chan.push, List.take_append_of_le_length hle]

/-- The ledger invariant is preserved by every pipeline step. -/
theorem pipeInv_step {N : Nat} {s t : PState N} (h : PipeInv s) (st : Step s t) :
    PipeInv t := by
  cases st with
  | deadline h0 =>
      exact ⟨h.gen_n_eq, h.sent_seq, h.src_cnt, h.src_sum, h.chIn_taken_le, h.chIn_cnt,
        h.chIn_sum, h.wforward, h.outs_taken_le, h.amounts_eq, h.chOut_cnt, h.chOut_sum,
        h.chOut_taken_le, h.sink_cnt, h.sink_sum, h.gen_closed, h.gen_open, h.outs_closed,
        h.w_stop_in, h.chOut_closed, h.closer_barrier, h.c_stop_in⟩
  | sinkStop hs hcl hbuf =>
      exact ⟨h.gen_n_eq, h.sent_seq, h.src_cnt, h.src_sum, h.chIn_taken_le, h.chIn_cnt,
        h.chIn_sum, h.wforward, h.outs_taken_le, h.amounts_eq, h.chOut_cnt, h.chOut_sum,
        h.chOut_taken_le, h.sink_cnt, h.sink_sum, h.gen_closed, h.gen_open, h.outs_closed,
        h.w_stop_in, h.chOut_closed, h.closer_barrier, h.c_stop_in⟩
  | genSend hph hctx =>
      have hlen : s.gen.n = (s.chIn.sent.length : Int) + 1 := by
        simpa [hph] using h.gen_n_eq
      have hcnt : (s.chIn.sent.length : Int) = s.inputCount := by
        simpa [hph] using h.src_cnt
      have hsum : s.chIn.sent.sum = s.inputSum := by
        simpa [hph] using h.src_sum
      refine ⟨?_, ?_, ?_, ?_, ?_, h.chIn_cnt, ?_, h.wforward, h.outs_taken_le,
        h.amounts_eq, h.chOut_cnt, h.chOut_sum, h.chOut_taken_le, h.sink_cnt, h.sink_sum,
        ?_, ?_, h.outs_closed, h.w_stop_in, h.chOut_closed, h.closer_barrier, h.c_stop_in⟩
      · dsimp [Chan.push]
        simp only [List.length_append, List.length_singleton]
        push_cast
        omega
      · dsimp [Chan.push]
        rw [List.length_append, List.length_singleton, intSeq_succ, ← h.sent_seq, hlen]
      · dsimp [Chan.push]
        simp only [List.length_append, List.length_singleton]
        push_cast
        omega
      · dsimp [Chan.push]
        rw [List.sum_append, hlen]
        simp [hsum]
      · dsimp [Chan.push]
        have := h.chIn_taken_le
        simp only [List.length_append, List.length_singleton]
        omega
      · dsimp only
        rw [Chan.takenSum_push h.chIn_taken_le]
        exact h.chIn_sum
      · intro hx
        simp at hx
      · intro hc
        have hd := h.gen_open hc
        rw [hph] at hd
        simp at hd
  | genObserve hph =>
      have hlen : s.gen.n = (s.chIn.sent.length : Int) := by
        simpa [hph] using h.gen_n_eq
      have hcnt : (s.chIn.sent.length : Int) = s.inputCount + 1 := by
        simpa [hph] using h.src_cnt
      have hsum : s.chIn.sent.sum = s.inputSum + s.gen.n := by
        simpa [hph] using h.src_sum
      refine ⟨?_, h.sent_seq, ?_, ?_, h.chIn_taken_le, h.chIn_cnt, h.chIn_sum,
        h.wforward, h.outs_taken_le, h.amounts_eq, h.chOut_cnt, h.chOut_sum,
        h.chOut_taken_le, h.sink_cnt, h.sink_sum, ?_, ?_, h.outs_closed, h.w_stop_in,
        h.chOut_closed, h.closer_barrier, h.c_stop_in⟩
      · dsimp
        omega
      · dsimp
        omega
      · dsimp
        omega
      · intro hx
        simp at hx
      · intro hc
        have hd := h.gen_open hc
        rw [hph] at hd
        simp at hd
  | genCancel hph hctx =>
      have hlen : s.gen.n = (s.chIn.sent.length : Int) + 1 := by
        simpa [hph] using h.gen_n_eq
      have hcnt : (s.chIn.sent.length : Int) = s.inputCount := by
        simpa [hph] using h.src_cnt
      have hsum : s.chIn.sent.sum = s.inputSum := by
        simpa [hph] using h.src_sum
      refine ⟨?_, h.sent_seq, ?_, ?_, h.chIn_taken_le, h.chIn_cnt, h.chIn_sum,
        h.wforward, h.outs_taken_le, h.amounts_eq, h.chOut_cnt, h.chOut_sum,
        h.chOut_taken_le, h.sink_cnt, h.sink_sum, ?_, ?_, h.outs_closed, ?_,
        h.chOut_closed, h.closer_barrier, h.c_stop_in⟩
      · dsimp [Chan.close]
        omega
      · dsimp [Chan.close]
        omega
      · dsimp [Chan.close]
        omega
      · intro _
        rfl
      · intro _
        rfl
      · intro i _
        rfl
  | wRecv i v hw hh =>
      have hlt := Chan.head_lt hh
      refine ⟨h.gen_n_eq, h.sent_seq, h.src_cnt, h.src_sum, ?_, ?_, ?_, ?_,
        h.outs_taken_le, h.amounts_eq, h.chOut_cnt, h.chOut_sum, h.chOut_taken_le,
        h.sink_cnt, h.sink_sum, h.gen_closed, h.gen_open, ?_, ?_, h.chOut_closed,
        h.closer_barrier, h.c_stop_in⟩
      · dsimp [Chan.pop]
        omega
      · dsimp [Chan.pop]
        rw [sum_len_update]
        simp only [List.length_append, List.length_singleton]
        push_cast
        linarith [h.chIn_cnt]
      · dsimp only
        rw [Chan.takenSum_pop hh, sum_sum_update]
        simp only [List.sum_append, List.sum_cons, List.sum_nil, add_zero]
        linarith [h.chIn_sum]
      · intro j
        by_cases hj : j = i
        · subst hj
          simp [Function.update_same, RelSt.heldList, h.wforward j, hw]
        · simp [Function.update_noteq hj, h.wforward j]
      · intro j
        by_cases hj : j = i
        · subst hj
          have e := h.outs_closed j
          simp [hw] at e
          simp [Function.update_same, e]
        · simp [Function.update_noteq hj, h.outs_closed j]
      · intro j hst
        dsimp only at hst
        by_cases hj : j = i
        · subst hj
          rw [Function.update_same] at hst
          simp at hst
        · rw [Function.update_noteq hj] at hst
          exact h.w_stop_in j hst
  | wSend i v hw =>
      refine ⟨h.gen_n_eq, h.sent_seq, h.src_cnt, h.src_sum, h.chIn_taken_le, h.chIn_cnt,
        h.chIn_sum, ?_, ?_, ?_, ?_, ?_, h.chOut_taken_le, h.sink_cnt, h.sink_sum,
        h.gen_closed, h.gen_open, ?_, ?_, h.chOut_closed, h.closer_barrier, ?_⟩
      · intro j
        by_cases hj : j = i
        · subst hj
          simp [Function.update_same, Chan.push, RelSt.heldList, h.wforward j, hw]
        · simp [Function.update_noteq hj, h.wforward j]
      · intro j
        by_cases hj : j = i
        · subst hj
          have := h.outs_taken_le j
          simp [Function.update_same, Chan.push]
          omega
        · simp [Function.update_noteq hj, h.outs_taken_le j]
      · intro j
        by_cases hj : j = i
        · subst hj
          simp [Function.update_same, Chan.push, h.amounts_eq j]
        · simp [Function.update_noteq hj, h.amounts_eq j]
      · dsimp only
        rw [sum_taken_update]
        dsimp [Chan.push]
        linarith [h.chOut_cnt]
      · dsimp only
        rw [sum_takenSum_update, Chan.takenSum_push (h.outs_taken_le i)]
        linarith [h.chOut_sum]
      · intro j
        by_cases hj : j = i
        · subst hj
          have e := h.outs_closed j
          simp [hw] at e
          simp [Function.update_same, Chan.push, e]
        · simp [Function.update_noteq hj, h.outs_closed j]
      · intro j hst
        dsimp only at hst
        by_cases hj : j = i
        · subst hj
          rw [Function.update_same] at hst
          simp at hst
        · rw [Function.update_noteq hj] at hst
          exact h.w_stop_in j hst
      · intro j hst
        dsimp only at hst
        by_cases hj : j = i
        · subst hj
          simp [Function.update_same, Chan.push]
          exact h.c_stop_in j hst
        · simp [Function.update_noteq hj]
          exact h.c_stop_in j hst
  | wStop i hw hcl hbuf =>
      refine ⟨h.gen_n_eq, h.sent_seq, h.src_cnt, h.src_sum, h.chIn_taken_le, h.chIn_cnt,
        h.chIn_sum, ?_, ?_, ?_, ?_, ?_, h.chOut_taken_le, h.sink_cnt, h.sink_sum,
        h.gen_closed, h.gen_open, ?_, ?_, h.chOut_closed, h.closer_barrier, ?_⟩
      · intro j
        by_cases hj : j = i
        · subst hj
          simp [Function.update_same, Chan.close, RelSt.heldList, h.wforward j, hw]
        · simp [Function.update_noteq hj, h.wforward j]
      · intro j
        by_cases hj : j = i
        · subst hj
          simpa [Function.update_same, Chan.close] using h.outs_taken_le j
        · simp [Function.update_noteq hj, h.outs_taken_le j]
      · intro j
        by_cases hj : j = i
        · subst hj
          simpa [Function.update_same, Chan.close] using h.amounts_eq j
        · simp [Function.update_noteq hj, h.amounts_eq j]
      · dsimp only
        rw [sum_taken_update]
        dsimp [Chan.close]
        linarith [h.chOut_cnt]
      · dsimp only
        rw [sum_takenSum_update]
        have e : ((s.outs i).close).takenSum = (s.outs i).takenSum := rfl
        rw [e]
        linarith [h.chOut_sum]
      · intro j
        by_cases hj : j = i
        · subst hj
          simp [Function.update_same, Chan.close]
        · simp [Function.update_noteq hj, h.outs_closed j]
      · intro j hst
        dsimp only at hst
        by_cases hj : j = i
        · subst hj
          exact hcl
        · rw [Function.update_noteq hj] at hst
          exact h.w_stop_in j hst
      · intro j hst
        dsimp only at hst
        by_cases hj : j = i
        · subst hj
          simp [Function.update_same, Chan.close]
        · simp [Function.update_noteq hj]
          exact h.c_stop_in j hst
  | cRecv i v hc hh =>
      have hlt := Chan.head_lt hh
      refine ⟨h.gen_n_eq, h.sent_seq, h.src_cnt, h.src_sum, h.chIn_taken_le, h.chIn_cnt,
        h.chIn_sum, ?_, ?_, ?_, ?_, ?_, h.chOut_taken_le, h.sink_cnt, h.sink_sum,
        h.gen_closed, h.gen_open, ?_, h.w_stop_in, h.chOut_closed, ?_, ?_⟩
      · intro j
        by_cases hj : j = i
        · subst hj
          simp [Function.update_same, Chan.pop, h.wforward j]
        · simp [Function.update_noteq hj, h.wforward j]
      · intro j
        by_cases hj : j = i
        · subst hj
          simp [Function.update_same, Chan.pop]
          omega
        · simp [Function.update_noteq hj, h.outs_taken_le j]
      · intro j
        by_cases hj : j = i
        · subst hj
          simp [Function.update_same, Chan.pop]
          linarith [h.amounts_eq j]
        · simp [Function.update_noteq hj, h.amounts_eq j]
      · dsimp only
        rw [sum_heldCount_update, sum_taken_update, hc]
        dsimp [Chan.pop]
        push_cast
        linarith [h.chOut_cnt]
      · dsimp only
        rw [sum_heldSum_update, sum_takenSum_update, Chan.takenSum_pop hh, hc]
        simp only [RelSt.heldSum_idle, RelSt.heldSum_relaying]
        linarith [h.chOut_sum]
      · intro j
        by_cases hj : j = i
        · subst hj
          simp [Function.update_same, Chan.pop, h.outs_closed j]
        · simp [Function.update_noteq hj, h.outs_closed j]
      · intro hd
        have e := h.closer_barrier hd i
        rw [hc] at e
        simp at e
      · intro j hst
        dsimp only at hst
        by_cases hj : j = i
        · subst hj
          rw [Function.update_same] at hst
          simp at hst
        · rw [Function.update_noteq hj] at hst
          simp [Function.update_noteq hj]
          exact h.c_stop_in j hst
  | cSend i v hc =>
      refine ⟨h.gen_n_eq, h.sent_seq, h.src_cnt, h.src_sum, h.chIn_taken_le, h.chIn_cnt,
        h.chIn_sum, h.wforward, h.outs_taken_le, h.amounts_eq, ?_, ?_, ?_, h.sink_cnt,
        ?_, h.gen_closed, h.gen_open, h.outs_closed, h.w_stop_in, h.chOut_closed, ?_, ?_⟩
      · dsimp only
        rw [sum_heldCount_update, hc]
        dsimp [Chan.push]
        simp only [List.length_append, List.length_singleton, RelSt.heldCount_idle,
          RelSt.heldCount_relaying]
        push_cast
        linarith [h.chOut_cnt]
      · dsimp only
        rw [sum_heldSum_update, hc]
        dsimp [Chan.push]
        simp only [List.sum_append, List.sum_cons, List.sum_nil, add_zero,
          RelSt.heldSum_idle, RelSt.heldSum_relaying]
        linarith [h.chOut_sum]
      · dsimp [Chan.push]
        simp only [List.length_append, List.length_singleton]
        have := h.chOut_taken_le
        omega
      · dsimp only
        rw [Chan.takenSum_push h.chOut_taken_le]
        exact h.sink_sum
      · intro hd
        have e := h.closer_barrier hd i
        rw [hc] at e
        simp at e
      · intro j hst
        dsimp only at hst
        by_cases hj : j = i
        · subst hj
          rw [Function.update_same] at hst
          simp at hst
        · rw [Function.update_noteq hj] at hst
          exact h.c_stop_in j hst
  | cStop i hc hocl hbuf =>
      refine ⟨h.gen_n_eq, h.sent_seq, h.src_cnt, h.src_sum, h.chIn_taken_le, h.chIn_cnt,
        h.chIn_sum, h.wforward, h.outs_taken_le, h.amounts_eq, ?_, ?_, h.chOut_taken_le,
        h.sink_cnt, h.sink_sum, h.gen_closed, h.gen_open, h.outs_closed, h.w_stop_in,
        h.chOut_closed, ?_, ?_⟩
      · dsimp only
        rw [sum_heldCount_update, hc]
        simp only [RelSt.heldCount_idle, RelSt.heldCount_stopped]
        linarith [h.chOut_cnt]
      · dsimp only
        rw [sum_heldSum_update, hc]
        simp only [RelSt.heldSum_idle, RelSt.heldSum_stopped]
        linarith [h.chOut_sum]
      · intro hd j
        by_cases hj : j = i
        · subst hj
          simp [Function.update_same]
        · simp [Function.update_noteq hj]
          exact h.closer_barrier hd j
      · intro j hst
        by_cases hj : j = i
        · subst hj
          exact hocl
        · dsimp only at hst
          rw [Function.update_noteq hj] at hst
          exact h.c_stop_in j hst
  | closer hcd hall =>
      refine ⟨h.gen_n_eq, h.sent_seq, h.src_cnt, h.src_sum, h.chIn_taken_le, h.chIn_cnt,
        h.chIn_sum, h.wforward, h.outs_taken_le, h.amounts_eq, h.chOut_cnt, h.chOut_sum,
        h.chOut_taken_le, h.sink_cnt, h.sink_sum, h.gen_closed, h.gen_open, h.outs_closed,
        h.w_stop_in, ?_, ?_, h.c_stop_in⟩
      · rfl
      · intro _
        exact hall
  | sinkRecv v hs hh =>
      have hlt := Chan.head_lt hh
      refine ⟨h.gen_n_eq, h.sent_seq, h.src_cnt, h.src_sum, h.chIn_taken_le, h.chIn_cnt,
        h.chIn_sum, h.wforward, h.outs_taken_le, h.amounts_eq, h.chOut_cnt, h.chOut_sum,
        ?_, ?_, ?_, h.gen_closed, h.gen_open, h.outs_closed, h.w_stop_in, h.chOut_closed,
        h.closer_barrier, h.c_stop_in⟩
      · dsimp [Chan.pop]
        omega
      · dsimp [Chan.pop]
        push_cast
        linarith [h.sink_cnt]
      · dsimp only
        rw [Chan.takenSum_pop hh]
        linarith [h.sink_sum]

/-- Every reachable pipeline state satisfies the ledger invariant. -/
theorem pipeInv_reachable {N : Nat} {s : PState N} (hr : Reachable N s) : PipeInv s := by
  induction hr with
  | init => exact pipeInv_init N
  | step h1 h2 ih => exact pipeInv_step ih h2

/-- In a reachable fully-drained state, all the conservation totals line up:
source count equals sink count, source sum equals sink sum, the amounts
entries sum to the source count, and every amounts entry is nonnegative. -/
lemma drained_totals {N : Nat} {s : PState N} (hr : Reachable N s) (hd : Drained s) :
    s.inputCount = s.count ∧ s.inputSum = s.sum ∧
      (∑ i, s.amounts i) = s.inputCount ∧ (∀ i, 0 ≤ s.amounts i) := by
  obtain ⟨hgen, hws, hcs, hcd, hsink, hbin, hbouts, hbout⟩ := hd
  have h := pipeInv_reachable hr
  have t1 : s.chIn.taken = s.chIn.sent.length :=
    Chan.taken_eq_of_buf_nil h.chIn_taken_le hbin
  have touts : ∀ i, (s.outs i).taken = (s.outs i).sent.length :=
    fun i => Chan.taken_eq_of_buf_nil (h.outs_taken_le i) (hbouts i)
  have tout : s.chOut.taken = s.chOut.sent.length :=
    Chan.taken_eq_of_buf_nil h.chOut_taken_le hbout
  have hrecvd : ∀ i, s.wrecvd i = (s.outs i).sent := by
    intro i
    have e := h.wforward i
    rw [hws i] at e
    simpa using e
  -- count chain
  have c1 : (s.chIn.sent.length : Int) = s.inputCount := by
    simpa [hgen] using h.src_cnt
  have chz : (∑ i, (s.coll i).heldCount) = 0 :=
    Finset.sum_eq_zero (fun i _ => by rw [hcs i]; rfl)
  have c4 : (∑ i, ((s.outs i).taken : Int)) = (s.chOut.sent.length : Int) := by
    have := h.chOut_cnt
    rw [chz] at this
    linarith
  have c5 : (∑ i, ((s.outs i).taken : Int)) = ∑ i, (((s.outs i).sent.length : Nat) : Int) :=
    Finset.sum_congr rfl (fun i _ => by rw [touts i])
  have c6 : (∑ i, ((s.wrecvd i).length : Int)) = ∑ i, (((s.outs i).sent.length : Nat) : Int) :=
    Finset.sum_congr rfl (fun i _ => by rw [hrecvd i])
  have hcount : s.inputCount = s.count := by
    have e1 := h.chIn_cnt
    have e2 := h.sink_cnt
    rw [t1] at e1
    rw [tout] at e2
    rw [c6] at e1
    rw [← c5, c4] at e1
    rw [← e2, ← c1, e1]
  -- sum chain
  have s1 : s.chIn.sent.sum = s.inputSum := by
    simpa [hgen] using h.src_sum
  have shz : (∑ i, (s.coll i).heldSum) = 0 :=
    Finset.sum_eq_zero (fun i _ => by rw [hcs i]; rfl)
  have s4 : (∑ i, (s.outs i).takenSum) = s.chOut.sent.sum := by
    have := h.chOut_sum
    rw [shz] at this
    linarith
  have s5 : (∑ i, (s.outs i).takenSum) = ∑ i, (s.outs i).sent.sum :=
    Finset.sum_congr rfl (fun i _ => Chan.takenSum_full (touts i))
  have s6 : (∑ i, (s.wrecvd i).sum) = ∑ i, (s.outs i).sent.sum :=
    Finset.sum_congr rfl (fun i _ => by rw [hrecvd i])
  have hsum : s.inputSum = s.sum := by
    have e1 := h.chIn_sum
    have e2 := h.sink_sum
    rw [Chan.takenSum_full t1, s1] at e1
    rw [Chan.takenSum_full tout] at e2
    rw [s6, ← s5, s4] at e1
    rw [← e2, e1]
  -- amounts
  have hamt : (∑ i, s.amounts i) = s.inputCount := by
    have e1 : (∑ i, s.amounts i) = ∑ i, ((s.outs i).taken : Int) :=
      Finset.sum_congr rfl (fun i _ => h.amounts_eq i)
    have e2 := h.chIn_cnt
    rw [t1] at e2
    rw [c6] at e2
    rw [e1, c5, ← e2, c1]
  exact ⟨hcount, hsum, hamt, fun i => by rw [h.amounts_eq i]; exact Int.natCast_nonneg _⟩

/-- Concrete run, one worker: state after the Generator sends 1. -/
def trace1 : PState 1 :=
  { PState.init 1 with chIn := ⟨[1], 0, false⟩, gen := ⟨1, .observing⟩ }

/-- Concrete run: after the observer callback counts the 1. -/
def trace2 : PState 1 :=
  { trace1 with inputCount := 1, inputSum := 1, gen := ⟨2, .checking⟩ }

/-- Concrete run: after the context deadline fires. -/
def trace3 : PState 1 :=
  { trace2 with ctxDone := true }

/-- Concrete run: after the Generator takes the Done branch and closes chIn. -/
def trace4 : PState 1 :=
  { trace3 with gen := ⟨2, .done⟩, chIn := ⟨[1], 0, true⟩ }

/-- Concrete run: after the worker receives the 1. -/
def trace5 : PState 1 :=
  { trace4 with chIn := ⟨[1], 1, true⟩
                worker := Function.update trace4.worker 0 (.relaying 1)
                wrecvd := Function.update trace4.wrecvd 0 [1] }

/-- Concrete run: after the worker forwards the 1 to its output channel. -/
def trace6 : PState 1 :=
  { trace5 with outs := Function.update trace5.outs 0 ⟨[1], 0, false⟩
                worker := Function.update trace5.worker 0 .idle }

/-- Concrete run: after the worker sees chIn closed and closes its output. -/
def trace7 : PState 1 :=
  { trace6 with worker := Function.update trace6.worker 0 .stopped
                outs := Function.update trace6.outs 0 ⟨[1], 0, true⟩ }

/-- Concrete run: after the collector receives the 1 and bumps amounts[0]. -/
def trace8 : PState 1 :=
  { trace7 with outs := Function.update trace7.outs 0 ⟨[1], 1, true⟩
                amounts := Function.update trace7.amounts 0 1
                coll := Function.update trace7.coll 0 (.relaying 1) }

/-- Concrete run: after the collector forwards the 1 to chOut. -/
def trace9 : PState 1 :=
  { trace8 with chOut := ⟨[1], 0, false⟩
                coll := Function.update trace8.coll 0 .idle }

/-- Concrete run: after the collector sees its channel closed and stops. -/
def trace10 : PState 1 :=
  { trace9 with coll := Function.update trace9.coll 0 .stopped }

/-- Concrete run: after the closer's wg.Wait returns and it closes chOut. -/
def trace11 : PState 1 :=
  { trace10 with chOut := ⟨[1], 0, true⟩, closerDone := true }

/-- Concrete run: after the sink receives the 1. -/
def trace12 : PState 1 :=
  { trace11 with chOut := ⟨[1], 1, true⟩, count := 1, sum := 1 }

/-- Concrete run: the fully drained final state. -/
def traceEnd : PState 1 :=
  { trace12 with sinkSt := .finished }

/-- The concrete run reaches `trace3` (deadline fired, generator still at the
top of its loop). -/
lemma reach_trace3 : Reachable 1 trace3 :=
  Reachable.step
    (Reachable.step
      (Reachable.step Reachable.init (Step.genSend _ rfl rfl))
      (Step.genObserve _ rfl))
    (Step.deadline _ rfl)

/-- The concrete run reaches `trace10` (all collectors stopped, chOut still
open). -/
lemma reach_trace10 : Reachable 1 trace10 := by
  have h4 : Reachable 1 trace4 :=
    Reachable.step reach_trace3 (Step.genCancel _ rfl rfl)
  have h5 : Reachable 1 trace5 :=
    Reachable.step h4 (Step.wRecv _ 0 1 rfl rfl)
  have h6 : Reachable 1 trace6 :=
    Reachable.step h5 (Step.wSend _ 0 1 rfl)
  have h7 : Reachable 1 trace7 :=
    Reachable.step h6 (Step.wStop _ 0 rfl rfl rfl)
  have h8 : Reachable 1 trace8 :=
    Reachable.step h7 (Step.cRecv _ 0 1 rfl rfl)
  have h9 : Reachable 1 trace9 :=
    Reachable.step h8 (Step.cSend _ 0 1 rfl)
  exact Reachable.step h9 (Step.cStop _ 0 rfl rfl rfl)

/-- The concrete run reaches the fully drained state `traceEnd`. -/
lemma reach_traceEnd : Reachable 1 traceEnd := by
  have h11 : Reachable 1 trace11 :=
    Reachable.step reach_trace10 (Step.closer _ rfl (by decide))
  have h12 : Reachable 1 trace12 :=
    Reachable.step h11 (Step.sinkRecv _ 1 rfl rfl)
  exact Reachable.step h12 (Step.sinkStop _ rfl rfl rfl)

/-- The merged channel's closed flag is never reset by any step. -/
lemma chOut_closed_mono {N : Nat} {s t : PState N} (hst : Step s t)
    (hc : s.chOut.closed = true) : t.chOut.closed = true := by
  cases hst <;> first | exact hc | rfl

/-- The only step that closes the merged channel is the closer's, whose
guards require that it has not run yet and that every collector has stopped. -/
lemma chOut_close_gate {N : Nat} {s t : PState N} (hst : Step s t)
    (hc0 : s.chOut.closed = false) (hc1 : t.chOut.closed = true) :
    s.closerDone = false ∧ ∀ i, s.coll i = RelSt.stopped := by
  cases hst
  case closer hcd hall => exact ⟨hcd, hall⟩
  all_goals exact absurd hc1 (by simp [hc0, Chan.push, Chan.pop])

/-- C1: after the pipeline has fully drained (generator cancelled, every
worker and collector loop exited, chOut closed, sink joined, all buffers
empty), the source-side totals equal the sink-side totals: inputCount =
count and inputSum = sum, for any worker-pool size N ≥ 1 and any point at
which the deadline fires (the `Step.deadline` transition is enabled at every
moment, covering every deadline ≥ 0). -/
theorem pipeline_conservation (N : Nat) (s : PState N) (hN : 1 ≤ N)
    (hr : Reachable N s) (hd : Drained s) :
    s.inputCount = s.count ∧ s.inputSum = s.sum :=
  ⟨(drained_totals hr hd).1, (drained_totals hr hd).2.1⟩

/-- Witness for C1: the concrete one-worker run that carries the single
value 1 end to end is reachable, drained, and conserves both totals. -/
theorem pipeline_conservation_witness :
    traceEnd.inputCount = traceEnd.count ∧ traceEnd.inputSum = traceEnd.sum :=
  pipeline_conservation 1 traceEnd (by decide) reach_traceEnd
    ⟨rfl, by decide, by decide, rfl, rfl, rfl, by decide, rfl⟩

/-- C2: after full drain the per-lane hit counters partition the source
total: the amounts entries sum to inputCount and every entry is ≥ 0. -/
theorem lane_partition (N : Nat) (s : PState N)
    (hr : Reachable N s) (hd : Drained s) :
    (∑ i, s.amounts i) = s.inputCount ∧ ∀ i, 0 ≤ s.amounts i :=
  ⟨(drained_totals hr hd).2.2.1, (drained_totals hr hd).2.2.2⟩

/-- Witness for C2: the concrete one-worker run. -/
theorem lane_partition_witness :
    (∑ i, traceEnd.amounts i) = traceEnd.inputCount ∧
      ∀ i, 0 ≤ traceEnd.amounts i :=
  lane_partition 1 traceEnd reach_traceEnd
    ⟨rfl, by decide, by decide, rfl, rfl, rfl, by decide, rfl⟩

/-- C3: in every reachable state the Generator's channel history is exactly
the initial segment 1, 2, ..., k (starting at 1, incrementing by one); values
are counted by the observer only after being sent (inputCount never exceeds
the number of sends); and whenever the Generator has returned — its only
exit path is the cancellation branch — the deferred close has run. -/
theorem generator_sequence_and_close (N : Nat) (s : PState N)
    (hr : Reachable N s) :
    s.chIn.sent = intSeq s.chIn.sent.length ∧
      s.inputCount ≤ (s.chIn.sent.length : Int) ∧
      (s.gen.phase = GenPhase.done → s.chIn.closed = true) := by
  have h := pipeInv_reachable hr
  refine ⟨h.sent_seq, ?_, h.gen_closed⟩
  have e := h.src_cnt
  by_cases hp : s.gen.phase = GenPhase.observing
  · simp [hp] at e
    omega
  · simp [hp] at e
    omega

/-- Witness for C3: the concrete one-worker run, where the history is [1]. -/
theorem generator_sequence_and_close_witness :
    traceEnd.chIn.sent = intSeq traceEnd.chIn.sent.length ∧
      traceEnd.inputCount ≤ (traceEnd.chIn.sent.length : Int) ∧
      (traceEnd.gen.phase = GenPhase.done → traceEnd.chIn.closed = true) :=
  generator_sequence_and_close 1 traceEnd reach_traceEnd

/-- C4: in every reachable state the number of values sent on chIn equals
inputCount plus at most one pending observer call (pending exactly while the
Generator sits between its send and its `fn(n)`), so each sent value gets
exactly one observer call, sequenced after the send; whenever the Generator
is not in that window — in particular once it has returned — every sent
value has been counted. -/
theorem observer_accounting (N : Nat) (s : PState N) (hr : Reachable N s) :
    (s.chIn.sent.length : Int)
        = s.inputCount + (if s.gen.phase = GenPhase.observing then 1 else 0) ∧
      (s.gen.phase ≠ GenPhase.observing →
        (s.chIn.sent.length : Int) = s.inputCount) := by
  have h := pipeInv_reachable hr
  refine ⟨h.src_cnt, fun hp => ?_⟩
  have e := h.src_cnt
  simp [hp] at e
  exact e

/-- Witness for C4: the concrete one-worker run after the Generator has
returned: one value sent, one value counted. -/
theorem observer_accounting_witness :
    (traceEnd.chIn.sent.length : Int)
        = traceEnd.inputCount
          + (if traceEnd.gen.phase = GenPhase.observing then 1 else 0) ∧
      (traceEnd.gen.phase ≠ GenPhase.observing →
        (traceEnd.chIn.sent.length : Int) = traceEnd.inputCount) :=
  observer_accounting 1 traceEnd reach_traceEnd

/-- C5: in every reachable state each Worker's output history plus its
currently held value is exactly the list of values it received from chIn, in
order and unchanged; and a stopped Worker has closed its output lane, only
stops once chIn is closed, and has forwarded everything it received —
including the case of a Worker that never received anything. -/
theorem worker_relay_faithful (N : Nat) (s : PState N) (hr : Reachable N s)
    (i : Fin N) :
    (s.outs i).sent ++ (s.worker i).heldList = s.wrecvd i ∧
      (s.worker i = RelSt.stopped →
        (s.outs i).closed = true ∧ s.chIn.closed = true ∧
          (s.outs i).sent = s.wrecvd i) := by
  have h := pipeInv_reachable hr
  refine ⟨(h.wforward i).symm, fun hst => ?_⟩
  refine ⟨(h.outs_closed i).mpr hst, h.w_stop_in i hst, ?_⟩
  have e := h.wforward i
  rw [hst] at e
  simpa using e.symm

/-- Witness for C5: worker 0 of the concrete one-worker run, stopped after
relaying [1]. -/
theorem worker_relay_faithful_witness :
    (traceEnd.outs 0).sent ++ (traceEnd.worker 0).heldList = traceEnd.wrecvd 0 ∧
      (traceEnd.worker 0 = RelSt.stopped →
        (traceEnd.outs 0).closed = true ∧ traceEnd.chIn.closed = true ∧
          (traceEnd.outs 0).sent = traceEnd.wrecvd 0) :=
  worker_relay_faithful 1 traceEnd reach_traceEnd 0

/-- C6: whenever the merged channel chOut is closed, every collector has
already stopped (all worker output lanes fully drained); the closed flag is
monotone, and the unique step that flips it is the closer's, which requires
that it has not already run — so chOut is closed exactly once, gated on the
counted join barrier, never on the first finisher. -/
theorem merged_close_barrier (N : Nat) (s t : PState N) (hr : Reachable N s)
    (hst : Step s t) :
    (t.chOut.closed = true → ∀ i, t.coll i = RelSt.stopped) ∧
      (s.chOut.closed = true → t.chOut.closed = true) ∧
      (s.chOut.closed = false → t.chOut.closed = true →
        s.closerDone = false ∧ ∀ i, s.coll i = RelSt.stopped) := by
  have ht := pipeInv_reachable (Reachable.step hr hst)
  refine ⟨fun hc => ht.closer_barrier ?_, chOut_closed_mono hst,
    chOut_close_gate hst⟩
  rw [← ht.chOut_closed]
  exact hc

/-- Witness for C6: the closer step of the concrete one-worker run. -/
theorem merged_close_barrier_witness :
    (trace11.chOut.closed = true → ∀ i, trace11.coll i = RelSt.stopped) ∧
      (trace10.chOut.closed = true → trace11.chOut.closed = true) ∧
      (trace10.chOut.closed = false → trace11.chOut.closed = true →
        trace10.closerDone = false ∧ ∀ i, trace10.coll i = RelSt.stopped) :=
  merged_close_barrier 1 trace10 trace11 reach_trace10
    (Step.closer _ rfl (by decide))

/-- C9: once the context deadline has fired, no step adds a value to the
Generator's channel history — the Generator's next loop iteration observes
`<-ctx.Done()` ready and returns — and the Generator's returned state is
absorbing.  In the model the deadline transition itself is the observation
boundary, so zero items are produced after it, which implies the
deadline-plus-one-quantum bound of the spec. -/
theorem no_production_after_cancel (N : Nat) (s t : PState N) (hst : Step s t)
    (hc : s.ctxDone = true) :
    t.chIn.sent = s.chIn.sent ∧ t.ctxDone = true ∧
      (s.gen.phase = GenPhase.done → t.gen.phase = GenPhase.done) := by
  cases hst with
  | deadline h0 => exact absurd hc (by simp [h0])
  | genSend hph hctx => exact absurd hc (by simp [hctx])
  | genObserve hph => exact ⟨rfl, hc, fun hdone => absurd hdone (by simp [hph])⟩
  | genCancel hph hctx => exact ⟨rfl, hc, fun _ => rfl⟩
  | wRecv i v hw hh => exact ⟨rfl, hc, fun h => h⟩
  | wSend i v hw => exact ⟨rfl, hc, fun h => h⟩
  | wStop i hw hcl hbuf => exact ⟨rfl, hc, fun h => h⟩
  | cRecv i v hc2 hh => exact ⟨rfl, hc, fun h => h⟩
  | cSend i v hc2 => exact ⟨rfl, hc, fun h => h⟩
  | cStop i hc2 ho hb => exact ⟨rfl, hc, fun h => h⟩
  | closer hcd hall => exact ⟨rfl, hc, fun h => h⟩
  | sinkRecv v hs hh => exact ⟨rfl, hc, fun h => h⟩
  | sinkStop hs hcl hb => exact ⟨rfl, hc, fun h => h⟩

/-- Witness for C9: the Generator's cancellation step in the concrete run
(deadline already fired in `trace3`), which produces nothing. -/
theorem no_production_after_cancel_witness :
    trace4.chIn.sent = trace3.chIn.sent ∧ trace4.ctxDone = true ∧
      (trace3.gen.phase = GenPhase.done → trace4.gen.phase = GenPhase.done) :=
  no_production_after_cancel 1 trace3 trace4 (Step.genCancel _ rfl rfl) rfl

/-- Outcome of main's sequential tail: a clean return (process exit status
0), or log.Fatalf with the given message (log.Fatalf writes the message to
the log and calls os.Exit(1), a non-zero status). -/
inductive ExitRes
  | ok
  | fatal (msg : String)
  deriving DecidableEq

/-- The diagnostic of line 120 of precode.go (sums disagree), with both
values rendered by %d. -/
def fatalSumMsg (a b : Int) : String :=
  "Ошибка: суммы чисел не равны: " ++ toString a ++ " != " ++ toString b ++ "\n"

/-- The diagnostic of line 123 of precode.go (counts disagree), with both
values rendered by %d. -/
def fatalCountMsg (a b : Int) : String :=
  "Ошибка: количество чисел не равно: " ++ toString a ++ " != " ++ toString b ++ "\n"

/-- The diagnostic of line 129 of precode.go (per-channel split check
fails).  Its format string has no verbs, so the message carries no numbers. -/
def fatalLanesMsg : String :=
  "Ошибка: разделение чисел по каналам неверное\n"

/-- The destructive loop of lines 125-127:
`for _, v := range amounts { inputCount.Add(-v) }`. -/
def laneDrain (ic : Int) (amounts : List Int) : Int :=
  amounts.foldl (fun acc v => acc - v) ic

/-- The check section of main (lines 119-130): result and the final value
held by inputCount.  log.Fatalf exits immediately, so when an earlier check
fails the destructive loop never runs and inputCount keeps its prior value. -/
def verifyChecks (inputCount inputSum count sum : Int) (amounts : List Int) :
    ExitRes × Int :=
  if inputSum ≠ sum then (.fatal (fatalSumMsg inputSum sum), inputCount)
  else if inputCount ≠ count then
    (.fatal (fatalCountMsg inputCount count), inputCount)
  else
    let ic := laneDrain inputCount amounts
    if ic ≠ 0 then (.fatal fatalLanesMsg, ic) else (.ok, ic)

/-- Go's fmt rendering of an []int64: the values space-separated in square
brackets. -/
def goSliceStr (l : List Int) : String :=
  "[" ++ String.intercalate " " (l.map toString) ++ "]"

/-- The three fmt.Println lines of main (lines 114-116), in order. -/
def reportLines (inputCount inputSum count sum : Int) (amounts : List Int) :
    List String :=
  ["Количество чисел " ++ toString inputCount ++ " " ++ toString count,
    "Сумма чисел " ++ toString inputSum ++ " " ++ toString sum,
    "Разбивка по каналам " ++ goSliceStr amounts]

/-- The sequential tail of main: the three report lines are produced first,
then the checks run on the same values. -/
def mainTail (inputCount inputSum count sum : Int) (amounts : List Int) :
    List String × ExitRes × Int :=
  (reportLines inputCount inputSum count sum amounts,
    verifyChecks inputCount inputSum count sum amounts)

/-- What main writes to standard output from a final pipeline state. -/
def pipelineStdout {N : Nat} (s : PState N) : List String :=
  reportLines s.inputCount s.inputSum s.count s.sum (List.ofFn s.amounts)

/-- `mentions msg v`: the decimal rendering of `v` occurs in `msg`. -/
def mentions (msg : String) (v : Int) : Prop :=
  ∃ p q : String, msg = p ++ toString v ++ q

/-- The destructive loop subtracts the whole slice sum. -/
lemma laneDrain_eq (ic : Int) (l : List Int) : laneDrain ic l = ic - l.sum := by
  induction l generalizing ic with
  | nil => simp [laneDrain]
  | cons x xs ih =>
      rw [laneDrain, List.foldl_cons]
      have e := ih (ic - x)
      rw [laneDrain] at e
      rw [e, List.sum_cons]
      ring

/-- A message none of whose characters is a digit cannot mention a
nonnegative value (whose rendering starts with a digit). -/
lemma no_digit_no_mention {msg : String} (h : ∀ c ∈ msg.data, ¬ c.isDigit)
    {v : Int} (hv : ∃ c ∈ (toString v).data, c.isDigit) : ¬ mentions msg v := by
  rintro ⟨p, q, he⟩
  rcases hv with ⟨c, hc1, hc2⟩
  have hmem : c ∈ msg.data := by
    rw [he, String.data_append, String.data_append]
    exact List.mem_append.mpr (Or.inl (List.mem_append.mpr (Or.inr hc1)))
  exact h c hmem hc2

/-- C7 counterexample: with source count 5, equal sums 15, equal counts 5 and
per-lane counters [2, 2] (which sum to 4, not 5), the lane-partition check
fails and the process dies with `fatalLanesMsg` — but that diagnostic
mentions neither the source total 5, nor the lane total 4, nor the residual
1: it carries no numbers at all, contradicting the claim that every
violation's diagnostic includes the mismatched numeric values. -/
theorem verifier_lane_msg_counterexample :
    (verifyChecks 5 15 5 15 [2, 2]).1 = ExitRes.fatal fatalLanesMsg ∧
      ¬ mentions fatalLanesMsg 5 ∧ ¬ mentions fatalLanesMsg 4 ∧
      ¬ mentions fatalLanesMsg 1 := by
  refine ⟨rfl, ?_, ?_, ?_⟩ <;>
    exact no_digit_no_mention (by decide) (by decide)

/-- C7 (amended): a failed sum check or count check terminates the process
with non-zero status and a diagnostic naming the invariant and carrying both
mismatched values; a failed lane-partition check terminates the process with
non-zero status and a diagnostic naming the invariant but carrying no
numeric values; when every check passes the process exits with status 0. -/
theorem verifier_diagnostics (ic isum c ssum : Int) (amounts : List Int) :
    (isum ≠ ssum →
      (verifyChecks ic isum c ssum amounts).1
          = ExitRes.fatal (fatalSumMsg isum ssum) ∧
        mentions (fatalSumMsg isum ssum) isum ∧
        mentions (fatalSumMsg isum ssum) ssum) ∧
    (isum = ssum → ic ≠ c →
      (verifyChecks ic isum c ssum amounts).1
          = ExitRes.fatal (fatalCountMsg ic c) ∧
        mentions (fatalCountMsg ic c) ic ∧ mentions (fatalCountMsg ic c) c) ∧
    (isum = ssum → ic = c → laneDrain ic amounts ≠ 0 →
      (verifyChecks ic isum c ssum amounts).1 = ExitRes.fatal fatalLanesMsg) ∧
    (isum = ssum → ic = c → laneDrain ic amounts = 0 →
      (verifyChecks ic isum c ssum amounts).1 = ExitRes.ok) := by
  refine ⟨fun h1 => ⟨by simp [verifyChecks, h1], ?_, ?_⟩,
    fun h1 h2 => ⟨by simp [verifyChecks, h1, h2], ?_, ?_⟩,
    fun h1 h2 h3 => by subst h1; subst h2; simp [verifyChecks, h3],
    fun h1 h2 h3 => by subst h1; subst h2; simp [verifyChecks, h3]⟩
  · exact ⟨"Ошибка: суммы чисел не равны: ", " != " ++ toString ssum ++ "\n",
      by simp [fatalSumMsg, String.append_assoc]⟩
  · exact ⟨"Ошибка: суммы чисел не равны: " ++ toString isum ++ " != ", "\n",
      by simp [fatalSumMsg, String.append_assoc]⟩
  · exact ⟨"Ошибка: количество чисел не равно: ", " != " ++ toString c ++ "\n",
      by simp [fatalCountMsg, String.append_assoc]⟩
  · exact ⟨"Ошибка: количество чисел не равно: " ++ toString ic ++ " != ", "\n",
      by simp [fatalCountMsg, String.append_assoc]⟩

/-- Witness for the amended C7: a concrete sum mismatch (1 vs 2) produces
the sum diagnostic carrying both values. -/
theorem verifier_diagnostics_witness :
    (verifyChecks 0 1 0 2 []).1 = ExitRes.fatal (fatalSumMsg 1 2) ∧
      mentions (fatalSumMsg 1 2) 1 ∧ mentions (fatalSumMsg 1 2) 2 :=
  (verifier_diagnostics 0 1 0 2 []).1 (by decide)

/-- C8: the program's standard output is exactly three lines: the first
compares the source and sink counts, the second compares the source and sink
sums, and the third carries the per-lane breakdown — the bracketed
space-separated rendering of the N per-lane counters, indexed by lane. -/
theorem report_three_lines (N : Nat) (s : PState N) :
    (pipelineStdout s).length = 3 ∧
      mentions ((pipelineStdout s).getD 0 "") s.inputCount ∧
      mentions ((pipelineStdout s).getD 0 "") s.count ∧
      mentions ((pipelineStdout s).getD 1 "") s.inputSum ∧
      mentions ((pipelineStdout s).getD 1 "") s.sum ∧
      (pipelineStdout s).getD 2 ""
        = "Разбивка по каналам " ++ goSliceStr (List.ofFn s.amounts) ∧
      ((List.ofFn s.amounts).map toString).length = N ∧
      (∀ j : Fin N, ((List.ofFn s.amounts).map toString)[(j : Nat)]?
          = some (toString (s.amounts j))) := by
  refine ⟨rfl, ?_, ?_, ?_, ?_, rfl, by simp, ?_⟩
  · exact ⟨"Количество чисел ", " " ++ toString s.count,
      by simp [pipelineStdout, reportLines, String.append_assoc]⟩
  · exact ⟨"Количество чисел " ++ toString s.inputCount ++ " ", "",
      by simp [pipelineStdout, reportLines, String.append_assoc]⟩
  · exact ⟨"Сумма чисел ", " " ++ toString s.sum,
      by simp [pipelineStdout, reportLines, String.append_assoc]⟩
  · exact ⟨"Сумма чисел " ++ toString s.inputSum ++ " ", "",
      by simp [pipelineStdout, reportLines, String.append_assoc]⟩
  · intro j
    simp [List.getElem?_map, List.getElem?_ofFn, List.ofFnNthVal, j.isLt]

/-- C10: main's tail computes the three report lines from the pre-mutation
inputCount and produces them regardless of how verification ends; once the
sum and count checks pass, the destructive lane loop leaves inputCount at
the original value minus the sum of the amounts slice — not at the source
total — and a fully successful run ends with inputCount holding 0. -/
theorem verifier_destructive_report_order (ic isum c ssum : Int)
    (amounts : List Int) :
    (mainTail ic isum c ssum amounts).1 = reportLines ic isum c ssum amounts ∧
      mentions (((mainTail ic isum c ssum amounts).1).getD 0 "") ic ∧
      (isum = ssum → ic = c →
        (mainTail ic isum c ssum amounts).2.2 = ic - amounts.sum) ∧
      ((mainTail ic isum c ssum amounts).2.1 = ExitRes.ok →
        (mainTail ic isum c ssum amounts).2.2 = 0) := by
  refine ⟨rfl, ?_, fun h1 h2 => ?_, fun hok => ?_⟩
  · exact ⟨"Количество чисел ", " " ++ toString c,
      by simp [mainTail, reportLines, String.append_assoc]⟩
  · subst h1
    subst h2
    simp only [mainTail, verifyChecks]
    split_ifs <;> simp_all [laneDrain_eq]
  · by_cases h1 : isum = ssum
    · subst h1
      by_cases h2 : ic = c
      · subst h2
        by_cases h3 : laneDrain ic amounts = 0
        · simp [mainTail, verifyChecks, h3]
        · simp [mainTail, verifyChecks, h3] at hok
      · simp [mainTail, verifyChecks, h2] at hok
    · simp [mainTail, verifyChecks, h1] at hok

/-- Witness for C10: a successful run over totals 5/15 with lanes [2, 3]
prints the pre-mutation report and ends with inputCount drained to 0. -/
theorem verifier_destructive_report_order_witness :
    (mainTail 5 15 5 15 [2, 3]).1 = reportLines 5 15 5 15 [2, 3] ∧
      (mainTail 5 15 5 15 [2, 3]).2.2 = 5 - [2, 3].sum :=
  ⟨(verifier_destructive_report_order 5 15 5 15 [2, 3]).1,
    (verifier_destructive_report_order 5 15 5 15 [2, 3]).2.2.1 rfl rfl⟩

/-- Witness for C8: the report of the concrete one-worker run. -/
theorem report_three_lines_witness :
    (pipelineStdout traceEnd).length = 3 ∧
      mentions ((pipelineStdout traceEnd).getD 0 "") traceEnd.inputCount ∧
      mentions ((pipelineStdout traceEnd).getD 0 "") traceEnd.count ∧
      mentions ((pipelineStdout traceEnd).getD 1 "") traceEnd.inputSum ∧
      mentions ((pipelineStdout traceEnd).getD 1 "") traceEnd.sum ∧
      (pipelineStdout traceEnd).getD 2 ""
        = "Разбивка по каналам " ++ goSliceStr (List.ofFn traceEnd.amounts) ∧
      ((List.ofFn traceEnd.amounts).map toString).length = 1 ∧
      (∀ j : Fin 1, ((List.ofFn traceEnd.amounts).map toString)[(j : Nat)]?
          = some (toString (traceEnd.amounts j))) :=
  report_three_lines 1 traceEnd
